import Mathlib

/-
Verification of the order-book replica maintained by
`gateio-perpetual-futures-orderbooks-golang` (src/main.go).

Embedding conventions:
* Go `float64` sizes and timestamps are modelled as `Rat`.  The source never
  performs floating-point arithmetic on sizes: it only compares a size with
  zero (`update.S == 0`) and stores values, so an exact numeric type is a
  faithful model of those operations.
* The Go map `map[string]float64` built inside `updateOrders` is modelled as
  an insertion-ordered association list: overwriting keeps an entry in place,
  inserting a fresh key appends it, deleting removes it.  Go's map iteration
  order (used when the map is materialized back into a slice) is unspecified
  and deliberately randomized by the runtime; the insertion order of the
  operations actually performed on the map is the canonical deterministic
  refinement used here.  Facts that depend only on the price-to-size
  association are stated through `lookupItems`, which is order-independent.
* Transport (HTTP, WebSocket) is replaced by the decoded outcome it delivers:
  `FetchOutcome` for the REST snapshot call and `InMsg` for one inbound
  WebSocket frame, with the two-phase decode of the `result` payload kept as
  the pair of possible decodings.
-/

namespace GateOB

/-- Source struct `OrderBookItem`: one price level, `P` the price string and
`S` the size. -/
structure OrderBookItem where
  P : String
  S : Rat
deriving DecidableEq

/-- Source struct `OrderBookResponse`: one instrument's order-book state. -/
structure OrderBookResponse where
  ID : Int
  Current : Rat
  Update : Rat
  Asks : List OrderBookItem
  Bids : List OrderBookItem
deriving DecidableEq

/-- Go map assignment `m[p] = v` on the insertion-ordered association list:
overwrite in place if the key is present, otherwise append. -/
def mapInsert (p : String) (v : Rat) : List OrderBookItem → List OrderBookItem
  | [] => [⟨p, v⟩]
  | o :: rest => if o.P = p then ⟨p, v⟩ :: rest else o :: mapInsert p v rest

/-- Go map deletion `delete(m, p)`: drop every entry with key `p` (a no-op
when the key is absent, exactly as in Go). -/
def mapDelete (p : String) : List OrderBookItem → List OrderBookItem
  | [] => []
  | o :: rest => if o.P = p then mapDelete p rest else o :: mapDelete p rest

/-- Body of the `for _, update := range updates` loop of `updateOrders`
(src/main.go:146-154): size zero deletes the price, otherwise the size is
inserted or overwritten. -/
def applyUpdate (m : List OrderBookItem) (e : OrderBookItem) : List OrderBookItem :=
  if e.S = 0 then mapDelete e.P m else mapInsert e.P e.S m

/-- First loop of `updateOrders` (src/main.go:140-143): load every existing
level into the map. -/
def buildMap (existing : List OrderBookItem) : List OrderBookItem :=
  existing.foldl (fun m o => mapInsert o.P o.S m) []

/-- Source function `updateOrders` (src/main.go:138-163): build the map from
the existing levels, fold the updates over it, and materialize the map.  In
the association-list model the materialization is the list itself. -/
def updateOrders (existing updates : List OrderBookItem) : List OrderBookItem :=
  updates.foldl applyUpdate (buildMap existing)

/-- Price-to-size lookup in a level list (first entry with the given price). -/
def lookupItems : List OrderBookItem → String → Option Rat
  | [], _ => none
  | o :: rest, p => if o.P = p then some o.S else lookupItems rest p

/-- Price column of a level list. -/
def prices (m : List OrderBookItem) : List String :=
  m.map (fun o => o.P)

/-- No two levels of the list share a price. -/
def pricesNodup (m : List OrderBookItem) : Prop :=
  (prices m).Nodup

instance (m : List OrderBookItem) : Decidable (pricesNodup m) :=
  inferInstanceAs (Decidable (prices m).Nodup)

/-- Last entry of the list carrying the given price, if any. -/
def lastTouch : List OrderBookItem → String → Option OrderBookItem
  | [], _ => none
  | o :: rest, p =>
    match lastTouch rest p with
    | some e => some e
    | none => if o.P = p then some o else none

/-- Modelled from the spec: one step of building the price→size association
from the current levels ("build a price→size association from
`currentLevels`"). -/
def baseStep (f : String → Option Rat) (o : OrderBookItem) : String → Option Rat :=
  fun q => if o.P = q then some o.S else f q

/-- Modelled from the spec: the association built from the current levels. -/
def baseAssoc (current : List OrderBookItem) : String → Option Rat :=
  current.foldl baseStep (fun _ => none)

/-- Modelled from the spec: processing one diff entry on the association
("if size == 0 remove the association for that price (no error if absent),
else insert-or-overwrite"). -/
def stepAssoc (f : String → Option Rat) (o : OrderBookItem) : String → Option Rat :=
  fun q =>
    if o.S = 0 then (if o.P = q then none else f q)
    else (if o.P = q then some o.S else f q)

/-- Modelled from the spec: the final association after inserting every
current level and then processing each update entry in order. -/
def specAssoc (current updates : List OrderBookItem) : String → Option Rat :=
  updates.foldl stepAssoc (baseAssoc current)

theorem lookupItems_mapInsert (p : String) (v : Rat) (q : String) :
    ∀ m : List OrderBookItem,
      lookupItems (mapInsert p v m) q = if p = q then some v else lookupItems m q := by
  intro m
  induction m with
  | nil =>
    by_cases h : p = q <;> simp [mapInsert, lookupItems, h]
  | cons o rest ih =>
    by_cases ho : o.P = p
    · rw [show mapInsert p v (o :: rest) = ⟨p, v⟩ :: rest by rw [mapInsert, if_pos ho]]
      by_cases h : p = q
      · simp [lookupItems, h]
      · have hoq : ¬ o.P = q := by rw [ho]; exact h
        simp [lookupItems, h, hoq]
    · rw [show mapInsert p v (o :: rest) = o :: mapInsert p v rest by
        rw [mapInsert, if_neg ho]]
      by_cases hq : o.P = q
      · have hpq : ¬ p = q := fun hc => ho (hq.trans hc.symm)
        simp [lookupItems, hq, hpq]
      · simp [lookupItems, hq, ih]

theorem lookupItems_mapDelete (p q : String) :
    ∀ m : List OrderBookItem,
      lookupItems (mapDelete p m) q = if p = q then none else lookupItems m q := by
  intro m
  induction m with
  | nil => simp [mapDelete, lookupItems, ite_self]
  | cons o rest ih =>
    by_cases ho : o.P = p
    · rw [show mapDelete p (o :: rest) = mapDelete p rest by rw [mapDelete, if_pos ho], ih]
      by_cases h : p = q
      · simp [h]
      · have hoq : ¬ o.P = q := by rw [ho]; exact h
        simp [lookupItems, h, hoq]
    · rw [show mapDelete p (o :: rest) = o :: mapDelete p rest by rw [mapDelete, if_neg ho]]
      by_cases hq : o.P = q
      · have hpq : ¬ p = q := fun hc => ho (hq.trans hc.symm)
        simp [lookupItems, hq, hpq]
      · simp [lookupItems, hq, ih]

theorem prices_cons (o : OrderBookItem) (rest : List OrderBookItem) :
    prices (o :: rest) = o.P :: prices rest := rfl

theorem pricesNodup_cons_iff (o : OrderBookItem) (rest : List OrderBookItem) :
    pricesNodup (o :: rest) ↔ o.P ∉ prices rest ∧ pricesNodup rest := by
  unfold pricesNodup
  rw [prices_cons, List.nodup_cons]

theorem mem_prices_mapInsert (p : String) (v : Rat) (q : String) :
    ∀ m : List OrderBookItem,
      q ∈ prices (mapInsert p v m) ↔ q = p ∨ q ∈ prices m := by
  intro m
  induction m with
  | nil => simp [mapInsert, prices]
  | cons o rest ih =>
    by_cases ho : o.P = p
    · rw [show mapInsert p v (o :: rest) = ⟨p, v⟩ :: rest by rw [mapInsert, if_pos ho]]
      rw [prices_cons, prices_cons]
      simp only [List.mem_cons]
      constructor
      · rintro (h | h)
        · exact Or.inl h
        · exact Or.inr (Or.inr h)
      · rintro (h | h | h)
        · exact Or.inl h
        · exact Or.inl (by rw [h, ho])
        · exact Or.inr h
    · rw [show mapInsert p v (o :: rest) = o :: mapInsert p v rest by
        rw [mapInsert, if_neg ho]]
      rw [prices_cons, prices_cons]
      simp only [List.mem_cons, ih]
      constructor
      · rintro (h | h | h)
        · exact Or.inr (Or.inl h)
        · exact Or.inl h
        · exact Or.inr (Or.inr h)
      · rintro (h | h | h)
        · exact Or.inr (Or.inl h)
        · exact Or.inl h
        · exact Or.inr (Or.inr h)

theorem pricesNodup_mapInsert (p : String) (v : Rat) :
    ∀ m : List OrderBookItem, pricesNodup m → pricesNodup (mapInsert p v m) := by
  intro m
  induction m with
  | nil => intro _; simp [mapInsert, pricesNodup, prices]
  | cons o rest ih =>
    intro h
    obtain ⟨hmem, hrest⟩ := (pricesNodup_cons_iff o rest).1 h
    by_cases ho : o.P = p
    · rw [show mapInsert p v (o :: rest) = ⟨p, v⟩ :: rest by rw [mapInsert, if_pos ho]]
      exact (pricesNodup_cons_iff _ _).2 ⟨by rw [← ho] at *; exact hmem, hrest⟩
    · rw [show mapInsert p v (o :: rest) = o :: mapInsert p v rest by
        rw [mapInsert, if_neg ho]]
      refine (pricesNodup_cons_iff _ _).2 ⟨?_, ih hrest⟩
      intro hc
      rcases (mem_prices_mapInsert p v o.P rest).1 hc with h1 | h1
      · exact ho h1
      · exact hmem h1

theorem mapDelete_sublist (p : String) :
    ∀ m : List OrderBookItem, (mapDelete p m).Sublist m := by
  intro m
  induction m with
  | nil => simp [mapDelete]
  | cons o rest ih =>
    by_cases ho : o.P = p
    · simpa [mapDelete, ho] using ih.cons o
    · simpa [mapDelete, ho] using ih.cons₂ o

theorem pricesNodup_mapDelete (p : String) (m : List OrderBookItem)
    (h : pricesNodup m) : pricesNodup (mapDelete p m) :=
  List.Nodup.sublist (List.Sublist.map _ (mapDelete_sublist p m)) h

theorem pricesNodup_applyUpdate (m : List OrderBookItem) (e : OrderBookItem)
    (h : pricesNodup m) : pricesNodup (applyUpdate m e) := by
  unfold applyUpdate
  by_cases he : e.S = 0
  · simpa [he] using pricesNodup_mapDelete e.P m h
  · simpa [he] using pricesNodup_mapInsert e.P e.S m h

theorem pricesNodup_foldl_applyUpdate (u : List OrderBookItem) :
    ∀ m : List OrderBookItem, pricesNodup m → pricesNodup (u.foldl applyUpdate m) := by
  induction u with
  | nil => intro m h; simpa using h
  | cons e rest ih =>
    intro m h
    simpa using ih (applyUpdate m e) (pricesNodup_applyUpdate m e h)

theorem pricesNodup_buildMap (s : List OrderBookItem) : pricesNodup (buildMap s) := by
  unfold buildMap
  have main : ∀ (l m : List OrderBookItem), pricesNodup m →
      pricesNodup (l.foldl (fun m o => mapInsert o.P o.S m) m) := by
    intro l
    induction l with
    | nil => intro m h; simpa using h
    | cons o rest ih =>
      intro m h
      simpa using ih (mapInsert o.P o.S m) (pricesNodup_mapInsert o.P o.S m h)
  exact main s [] (by simp [pricesNodup, prices])

theorem pricesNodup_updateOrders (s u : List OrderBookItem) :
    pricesNodup (updateOrders s u) :=
  pricesNodup_foldl_applyUpdate u (buildMap s) (pricesNodup_buildMap s)

/-- Net effect of one diff entry on its own price: a zero size deletes, a
non-zero size sets. -/
def netSize (e : OrderBookItem) : Option Rat :=
  if e.S = 0 then none else some e.S

theorem foldl_baseStep_lastTouch (s : List OrderBookItem) :
    ∀ (f : String → Option Rat) (p : String),
      (s.foldl baseStep f) p =
        match lastTouch s p with
        | some e => some e.S
        | none => f p := by
  induction s with
  | nil => intro f p; simp [lastTouch]
  | cons o rest ih =>
    intro f p
    rw [List.foldl_cons, ih (baseStep f o) p]
    cases hlt : lastTouch rest p with
    | some e => simp [lastTouch, hlt]
    | none =>
      by_cases ho : o.P = p <;> simp [lastTouch, hlt, baseStep, ho]

theorem foldl_stepAssoc_lastTouch (u : List OrderBookItem) :
    ∀ (f : String → Option Rat) (p : String),
      (u.foldl stepAssoc f) p =
        match lastTouch u p with
        | some e => netSize e
        | none => f p := by
  induction u with
  | nil => intro f p; simp [lastTouch]
  | cons o rest ih =>
    intro f p
    rw [List.foldl_cons, ih (stepAssoc f o) p]
    cases hlt : lastTouch rest p with
    | some e => simp [lastTouch, hlt]
    | none =>
      by_cases ho : o.P = p <;>
        by_cases hz : o.S = 0 <;>
          simp [lastTouch, hlt, stepAssoc, netSize, ho, hz]

theorem lookupItems_foldl_insert (s : List OrderBookItem) :
    ∀ (m : List OrderBookItem) (f : String → Option Rat),
      (∀ q, lookupItems m q = f q) →
      ∀ p, lookupItems (s.foldl (fun m o => mapInsert o.P o.S m) m) p =
        (s.foldl baseStep f) p := by
  induction s with
  | nil => intro m f hmf p; exact hmf p
  | cons o rest ih =>
    intro m f hmf p
    rw [List.foldl_cons, List.foldl_cons]
    refine ih (mapInsert o.P o.S m) (baseStep f o) ?_ p
    intro q
    rw [lookupItems_mapInsert, baseStep]
    by_cases h : o.P = q <;> simp [h, hmf q]

theorem lookupItems_buildMap (s : List OrderBookItem) (p : String) :
    lookupItems (buildMap s) p = baseAssoc s p :=
  lookupItems_foldl_insert s [] (fun _ => none) (fun _ => rfl) p

theorem lookupItems_foldl_applyUpdate (u : List OrderBookItem) :
    ∀ (m : List OrderBookItem) (f : String → Option Rat),
      (∀ q, lookupItems m q = f q) →
      ∀ p, lookupItems (u.foldl applyUpdate m) p = (u.foldl stepAssoc f) p := by
  induction u with
  | nil => intro m f hmf p; exact hmf p
  | cons e rest ih =>
    intro m f hmf p
    rw [List.foldl_cons, List.foldl_cons]
    refine ih (applyUpdate m e) (stepAssoc f e) ?_ p
    intro q
    rw [applyUpdate, stepAssoc]
    by_cases hz : e.S = 0
    · rw [if_pos hz, if_pos hz, lookupItems_mapDelete]
      by_cases h : e.P = q <;> simp [h, hmf q]
    · rw [if_neg hz, if_neg hz, lookupItems_mapInsert]
      by_cases h : e.P = q <;> simp [h, hmf q]

theorem lookupItems_updateOrders (s u : List OrderBookItem) (p : String) :
    lookupItems (updateOrders s u) p = specAssoc s u p :=
  lookupItems_foldl_applyUpdate u (buildMap s) (baseAssoc s)
    (fun q => lookupItems_buildMap s q) p

theorem lastTouch_mem :
    ∀ (m : List OrderBookItem) (p : String) (e : OrderBookItem),
      lastTouch m p = some e → e ∈ m ∧ e.P = p := by
  intro m
  induction m with
  | nil => intro p e h; simp [lastTouch] at h
  | cons o rest ih =>
    intro p e h
    rw [lastTouch] at h
    cases hlt : lastTouch rest p with
    | some e' =>
      rw [hlt] at h
      obtain ⟨h1, h2⟩ := ih p e' hlt
      simp only [Option.some.injEq] at h
      exact ⟨by rw [← h]; exact List.mem_cons_of_mem o h1, by rw [← h]; exact h2⟩
    | none =>
      rw [hlt] at h
      by_cases ho : o.P = p
      · rw [if_pos ho] at h
        simp only [Option.some.injEq] at h
        exact ⟨by rw [← h]; exact List.mem_cons_self o rest, by rw [← h]; exact ho⟩
      · rw [if_neg ho] at h
        exact absurd h (by simp)

theorem mem_prices_of_mem {e : OrderBookItem} {m : List OrderBookItem}
    (h : e ∈ m) : e.P ∈ prices m :=
  List.mem_map_of_mem _ h

theorem lastTouch_lookup_of_nodup :
    ∀ (m : List OrderBookItem), pricesNodup m → ∀ p : String,
      (match lastTouch m p with
       | some e => some e.S
       | none => none) = lookupItems m p := by
  intro m
  induction m with
  | nil => intro _ p; simp [lastTouch, lookupItems]
  | cons o rest ih =>
    intro h p
    obtain ⟨hmem, hrest⟩ := (pricesNodup_cons_iff o rest).1 h
    cases hlt : lastTouch rest p with
    | some e =>
      have he := lastTouch_mem rest p e hlt
      have hp : p ∈ prices rest := by rw [← he.2]; exact mem_prices_of_mem he.1
      have ho : ¬ o.P = p := fun hc => hmem (by rw [hc]; exact hp)
      have := ih hrest p
      rw [hlt] at this
      simp only [lastTouch, hlt, lookupItems, if_neg ho]
      exact this
    | none =>
      have := ih hrest p
      rw [hlt] at this
      by_cases ho : o.P = p <;> simp [lastTouch, lookupItems, hlt, ho, ← this]

theorem baseAssoc_eq_lookupItems_of_nodup (m : List OrderBookItem)
    (h : pricesNodup m) (p : String) : baseAssoc m p = lookupItems m p := by
  rw [baseAssoc, foldl_baseStep_lastTouch, ← lastTouch_lookup_of_nodup m h p]

theorem mem_iff_lookupItems :
    ∀ (m : List OrderBookItem), pricesNodup m → ∀ o : OrderBookItem,
      o ∈ m ↔ lookupItems m o.P = some o.S := by
  intro m
  induction m with
  | nil => intro _ o; simp [lookupItems]
  | cons a rest ih =>
    intro h o
    obtain ⟨hmem, hrest⟩ := (pricesNodup_cons_iff a rest).1 h
    by_cases ha : a.P = o.P
    · constructor
      · intro hin
        rcases List.mem_cons.1 hin with hin | hin
        · rw [hin]; simp [lookupItems, ha]
        · exact absurd (by rw [ha]; exact mem_prices_of_mem hin) hmem
      · intro hl
        rw [lookupItems, if_pos ha] at hl
        simp only [Option.some.injEq] at hl
        have : o = a := by
          cases o; cases a
          simp only [OrderBookItem.mk.injEq]
          simp only at ha hl
          exact ⟨ha.symm, hl.symm⟩
        rw [this]
        exact List.mem_cons_self a rest
    · rw [lookupItems, if_neg ha]
      constructor
      · intro hin
        rcases List.mem_cons.1 hin with hin | hin
        · exact absurd (show a.P = o.P by rw [hin]) ha
        · exact (ih hrest o).1 hin
      · intro hl
        exact List.mem_cons_of_mem a ((ih hrest o).2 hl)

/-- Source struct `OrderBookUpdate`: the decoded `result` payload of an
`update` frame (`s` = contract, `a` = ask updates, `b` = bid updates). -/
structure OrderBookUpdate where
  Contract : String
  Asks : List OrderBookItem
  Bids : List OrderBookItem
deriving DecidableEq

/-- Source struct `SubscriptionResponse`: the decoded `result` payload of a
`subscribe` acknowledgement frame. -/
structure SubscriptionResponse where
  Status : String
deriving DecidableEq

/-- Two-phase decode of the raw `result` field (`json.RawMessage` in the
source): the consumer defers decoding until `channel` and `event` are known,
so the model carries the outcome of both possible decodings. -/
structure RawResult where
  asSub : Option SubscriptionResponse
  asUpdate : Option OrderBookUpdate
deriving DecidableEq

/-- Source struct `WebSocketMessage`: the decoded frame envelope. -/
structure WebSocketMessage where
  Time : Int
  Channel : String
  Event : String
  Result : RawResult
deriving DecidableEq

/-- One inbound WebSocket frame, as seen after the envelope unmarshal:
either the unmarshal fails (the frame is malformed) or it yields an
envelope. -/
inductive InMsg where
  | malformed
  | ok (w : WebSocketMessage)
deriving DecidableEq

/-- The Replica Store: the global `orderbooks` map of the source, modelled
as a lookup function. -/
def Store : Type := String → Option OrderBookResponse

/-- Go map assignment `orderbooks[c] = v`. -/
def setStore (st : Store) (c : String) (v : OrderBookResponse) : Store :=
  fun k => if k = c then some v else st k

/-- Source function `handleWebSocketMessage` (src/main.go:166-223), as a
state transformer on the Replica Store.  Every early `return` of the source
(parse error, wrong channel, subscribe acknowledgement, update decode error,
empty contract, unknown contract, empty diff) leaves the store untouched;
the only mutation is the merge-and-assign block at src/main.go:211-220. -/
def handleWebSocketMessage (msg : InMsg) (orderbooks : Store) : Store :=
  match msg with
  | .malformed => orderbooks
  | .ok wsMsg =>
    if wsMsg.Channel = "futures.order_book_update" then
      if wsMsg.Event = "subscribe" then
        orderbooks
      else if wsMsg.Event = "update" then
        match wsMsg.Result.asUpdate with
        | none => orderbooks
        | some update =>
          if update.Contract = "" then
            orderbooks
          else
            match orderbooks update.Contract with
            | none => orderbooks
            | some existing =>
              if 0 < update.Asks.length ∨ 0 < update.Bids.length then
                setStore orderbooks update.Contract
                  { existing with
                    Asks := updateOrders existing.Asks update.Asks
                    Bids := updateOrders existing.Bids update.Bids
                    Update := (wsMsg.Time : Rat) / 1000 }
              else orderbooks
      else orderbooks
    else orderbooks

/-- Folding one frame into the store (the body of the receive loop in
`connectWebSocket`). -/
def streamStep (st : Store) (m : InMsg) : Store :=
  handleWebSocketMessage m st

/-- Envelope timestamp of a frame (zero for a malformed frame, which is
never applied anyway). -/
def msgTime : InMsg → Int
  | .malformed => 0
  | .ok w => w.Time

/-- The `Update` (lastUpdateAt) field currently stored for an instrument
(zero when the instrument is untracked). -/
def updAt (st : Store) (c : String) : Rat :=
  match st c with
  | some ob => ob.Update
  | none => 0

/-- A frame that the consumer actually applies for instrument `c`: correct
channel, an `update` event whose payload decodes, the matching non-empty
contract, and at least one non-empty side-update list. -/
def AppliedUpdateFor (c : String) (m : InMsg) : Prop :=
  c ≠ "" ∧ ∃ w u, m = .ok w ∧ w.Channel = "futures.order_book_update" ∧
    w.Event = "update" ∧ w.Result.asUpdate = some u ∧ u.Contract = c ∧
    (u.Asks ≠ [] ∨ u.Bids ≠ [])

/-- Outcome of the one-shot snapshot HTTP exchange, as the source observes
it: the connection can fail (`http.Get` error), reading the body can fail
(`ioutil.ReadAll` error), or a response with a status code and body arrives,
whose body may or may not decode as an `OrderBookResponse`. -/
inductive FetchOutcome where
  | transportFail (e : String)
  | readFail (e : String)
  | success (status : Int) (body : String) (parsed : Option OrderBookResponse)
deriving DecidableEq

/-- Source function `getOrderBookSnapshot` (src/main.go:56-83), over the
outcome of the transport exchange. -/
def getOrderBookSnapshot (fo : FetchOutcome) : Except String OrderBookResponse :=
  match fo with
  | .transportFail e => .error ("HTTP request error: " ++ e)
  | .readFail e => .error ("Response read error: " ++ e)
  | .success status body parsed =>
    if status ≠ 200 then
      .error ("API error, status: " ++ toString status ++ ", response: " ++ body)
    else
      match parsed with
      | none => .error "JSON parse error"
      | some orderbook => .ok orderbook

/-- Order-book states reachable by the consumer: an initial snapshot whose
two sides have pairwise-distinct prices, followed by any finite sequence of
merge steps, each mirroring the mutation block of `handleWebSocketMessage`
(src/main.go:213-215). -/
inductive ReachableBook : OrderBookResponse → Prop where
  | snap (ob : OrderBookResponse) (ha : pricesNodup ob.Asks)
      (hb : pricesNodup ob.Bids) : ReachableBook ob
  | step (ob : OrderBookResponse) (hob : ReachableBook ob)
      (au bu : List OrderBookItem) (t : Rat) :
      ReachableBook
        { ob with Asks := updateOrders ob.Asks au
                  Bids := updateOrders ob.Bids bu
                  Update := t }

/-- Value of a list of decimal digit characters. -/
def natOfDigits (l : List Char) : Nat :=
  l.foldl (fun n c => 10 * n + (c.toNat - 48)) 0

/-- Value of a fractional digit string scaled to exactly 8 decimal places
(digits beyond the eighth are dropped; `%.8f` rounds them, a difference
invisible for the at-most-8-digit decimals this repository handles). -/
def frac8 (fp : List Char) : Nat :=
  let d := fp.take 8
  natOfDigits (d ++ List.replicate (8 - d.length) '0')

/-- Decimal parse of an unsigned price string, scaled by 10^8.  Models the
plain-decimal fragment of `strconv.ParseFloat` (the source never feeds it
exponent or hexadecimal forms). -/
def parseUnsigned8 (s : List Char) : Option Int :=
  let ip := s.takeWhile Char.isDigit
  let rest := s.dropWhile Char.isDigit
  match rest with
  | [] => if ip.isEmpty then none else some ((natOfDigits ip : Int) * 100000000)
  | '.' :: fp =>
    if fp.all Char.isDigit && !(ip.isEmpty && fp.isEmpty) then
      some ((natOfDigits ip : Int) * 100000000 + (frac8 fp : Int))
    else none
  | _ => none

/-- Price of one level as `formatOrderBook` sees it, scaled by 10^8: the
source calls `strconv.ParseFloat(p, 64)` and discards the error, so a string
that fails to parse contributes the value 0. -/
def parseScaled8 (str : String) : Int :=
  (match str.data with
   | '-' :: rest => (parseUnsigned8 rest).map (fun n => -n)
   | s => parseUnsigned8 s).getD 0

/-- Left-pad a string with zeros to the given width. -/
def pad0 (k : Nat) (s : String) : String :=
  String.mk (List.replicate (k - s.length) '0') ++ s

/-- Fixed-point rendering of a 10^8-scaled integer with 8 fractional
digits, as `%.8f` renders the corresponding value. -/
def fmtScaled8 (n : Int) : String :=
  let sign := if n < 0 then "-" else ""
  let m := n.natAbs
  sign ++ toString (m / 100000000) ++ "." ++ pad0 8 (toString (m % 100000000))

/-- Rendering of a size with `%.8f`. -/
def fmt8 (q : Rat) : String :=
  fmtScaled8 (round (q * 100000000))

/-- One ask line of the durable capture: `ASK price | size`. -/
def askLine (a : OrderBookItem) : String :=
  "ASK " ++ fmtScaled8 (parseScaled8 a.P) ++ " | " ++ fmt8 a.S ++ "\n"

/-- One bid line of the durable capture: `BID price | size`. -/
def bidLine (b : OrderBookItem) : String :=
  "BID " ++ fmtScaled8 (parseScaled8 b.P) ++ " | " ++ fmt8 b.S ++ "\n"

/-- Separator between the ask block and the bid block. -/
def sepLine : String :=
  "------------------------\n"

/-- Source function `formatOrderBook` (src/main.go:86-108): a string
builder that appends the asks in reverse index order, the separator, then
the bids in slice order. -/
def formatOrderBook (orderbook : OrderBookResponse) : String :=
  let sb := orderbook.Asks.reverse.foldl (fun acc a => acc ++ askLine a) ""
  let sb2 := sb ++ sepLine
  orderbook.Bids.foldl (fun acc b => acc ++ bidLine b) sb2

theorem string_foldl_append (l : List String) :
    ∀ a : String, l.foldl (fun r s => r ++ s) a = a ++ l.foldl (fun r s => r ++ s) "" := by
  induction l with
  | nil => intro a; simp
  | cons s rest ih =>
    intro a
    rw [List.foldl_cons, List.foldl_cons, ih (a ++ s), ih ("" ++ s)]
    simp [String.append_assoc]

theorem lookupItems_updateOrders_char (s u : List OrderBookItem) (p : String) :
    lookupItems (updateOrders s u) p =
      match lastTouch u p with
      | some e => netSize e
      | none => baseAssoc s p := by
  rw [lookupItems_updateOrders, specAssoc, foldl_stepAssoc_lastTouch]

theorem lookupItems_updateOrders_twice (s ua ub : List OrderBookItem) (p : String) :
    lookupItems (updateOrders (updateOrders s ua) ub) p =
      match lastTouch ub p with
      | some e => netSize e
      | none =>
        match lastTouch ua p with
        | some e => netSize e
        | none => baseAssoc s p := by
  rw [lookupItems_updateOrders_char]
  cases hlb : lastTouch ub p with
  | some e => rfl
  | none =>
    rw [baseAssoc_eq_lookupItems_of_nodup _ (pricesNodup_updateOrders s ua),
      lookupItems_updateOrders_char]

theorem foldl_append_eq_join {α : Type} (g : α → String) :
    ∀ (l : List α) (acc : String),
      l.foldl (fun a x => a ++ g x) acc = acc ++ String.join (l.map g) := by
  intro l
  induction l with
  | nil => intro acc; simp [String.join]
  | cons x rest ih =>
    intro acc
    rw [List.foldl_cons, ih]
    rw [String.append_assoc]
    congr 1
    rw [show String.join (List.map g (x :: rest)) =
        (List.map g (x :: rest)).foldl (fun r s => r ++ s) "" from rfl]
    rw [List.map_cons, List.foldl_cons, string_foldl_append]
    simp [String.join]

/-- C1: `updateOrders` returns exactly the levels of the price-to-size
association built by inserting every current level and then processing each
update entry in order — size 0 removes the price's association (a no-op
when absent), size > 0 inserts or overwrites — and the result materializes
that final association: its prices are pairwise distinct, its lookup
function is the final association, and its members are exactly the pairs of
the final association. -/
theorem c1_updateOrders_matches_spec_association (s u : List OrderBookItem) :
    pricesNodup (updateOrders s u) ∧
    (∀ p, lookupItems (updateOrders s u) p = specAssoc s u p) ∧
    (∀ o : OrderBookItem, o ∈ updateOrders s u ↔ specAssoc s u o.P = some o.S) := by
  refine ⟨pricesNodup_updateOrders s u, fun p => lookupItems_updateOrders s u p, fun o => ?_⟩
  rw [← lookupItems_updateOrders s u o.P]
  exact mem_iff_lookupItems _ (pricesNodup_updateOrders s u) o

/-- C2: every order-book state reachable from a snapshot with
pairwise-distinct prices on each side, by any finite sequence of merges,
keeps pairwise-distinct prices within its asks and within its bids (and the
output of `updateOrders` itself always has pairwise-distinct prices, which
is what the merge step of the induction uses). -/
theorem c2_reachable_price_uniqueness (ob : OrderBookResponse)
    (h : ReachableBook ob) : pricesNodup ob.Asks ∧ pricesNodup ob.Bids := by
  induction h with
  | snap ob ha hb => exact ⟨ha, hb⟩
  | step ob hob au bu t ih =>
    exact ⟨pricesNodup_updateOrders _ _, pricesNodup_updateOrders _ _⟩

/-- Witness for C2 at a concrete reachable state: one merge step applied to
a concrete snapshot. -/
theorem c2_reachable_price_uniqueness_witness :
    pricesNodup ({ ID := 1
                   Current := 0
                   Update := 7
                   Asks := updateOrders [⟨"100.0", 2⟩] [⟨"100.0", 0⟩, ⟨"101.0", 4⟩]
                   Bids := updateOrders [⟨"99.0", 3⟩] [⟨"99.0", 5⟩] } :
      OrderBookResponse).Asks ∧
    pricesNodup ({ ID := 1
                   Current := 0
                   Update := 7
                   Asks := updateOrders [⟨"100.0", 2⟩] [⟨"100.0", 0⟩, ⟨"101.0", 4⟩]
                   Bids := updateOrders [⟨"99.0", 3⟩] [⟨"99.0", 5⟩] } :
      OrderBookResponse).Bids :=
  c2_reachable_price_uniqueness _
    (ReachableBook.step ⟨1, 0, 0, [⟨"100.0", 2⟩], [⟨"99.0", 3⟩]⟩
      (ReachableBook.snap _ (by decide) (by decide))
      [⟨"100.0", 0⟩, ⟨"101.0", 4⟩] [⟨"99.0", 5⟩] 7)

/-- C5 counterexample: two updates with disjoint prices ("a" and "b" are
distinct) applied in either order do not yield the same result as a
sequence of levels — only the same association — because a fresh price is
appended where the map operations put it, and the Go map iteration order
that materializes the result is unspecified in any case. -/
theorem c5_counterexample :
    ("a" : String) ≠ "b" ∧
    updateOrders (updateOrders [] [⟨"a", 1⟩]) [⟨"b", 2⟩] ≠
      updateOrders (updateOrders [] [⟨"b", 2⟩]) [⟨"a", 1⟩] := by
  decide

/-- C5 (amended): merging two update sequences with disjoint price sets in
either order yields the same price-to-size association (the same levels up
to materialization order, which the Go map does not fix); `updateOrders`
itself is modelled as a pure function of its two arguments. -/
theorem c5_disjoint_updates_commute_assoc (s u1 u2 : List OrderBookItem)
    (hdisj : ∀ e1 ∈ u1, ∀ e2 ∈ u2, e1.P ≠ e2.P) (p : String) :
    lookupItems (updateOrders (updateOrders s u1) u2) p =
      lookupItems (updateOrders (updateOrders s u2) u1) p := by
  rw [lookupItems_updateOrders_twice, lookupItems_updateOrders_twice]
  cases hl1 : lastTouch u1 p with
  | some e1 =>
    cases hl2 : lastTouch u2 p with
    | some e2 =>
      obtain ⟨m1, p1⟩ := lastTouch_mem u1 p e1 hl1
      obtain ⟨m2, p2⟩ := lastTouch_mem u2 p e2 hl2
      exact absurd (p1.trans p2.symm) (hdisj e1 m1 e2 m2)
    | none => rfl
  | none =>
    cases hl2 : lastTouch u2 p <;> rfl

/-- Witness for C5 (amended) at concrete disjoint updates. -/
theorem c5_disjoint_updates_commute_assoc_witness :
    lookupItems (updateOrders (updateOrders [⟨"A", 1⟩] [⟨"A", 0⟩]) [⟨"B", 2⟩]) "B" =
      lookupItems (updateOrders (updateOrders [⟨"A", 1⟩] [⟨"B", 2⟩]) [⟨"A", 0⟩]) "B" :=
  c5_disjoint_updates_commute_assoc [⟨"A", 1⟩] [⟨"A", 0⟩] [⟨"B", 2⟩] (by decide) "B"

/-- C6 counterexample: a replayed diff whose size-0 entries all name prices
present in the current levels ("A" is present) still fails to reproduce the
same level sequence, because a delete-then-reinsert moves the price to the
end of the map's insertion order while other inserts land around it — and
the Go map materialization order is unspecified in any case. -/
theorem c6_counterexample :
    ("A" : String) ∈ prices [(⟨"A", 1⟩ : OrderBookItem)] ∧
    updateOrders (updateOrders [⟨"A", 1⟩] [⟨"A", 0⟩, ⟨"A", 2⟩, ⟨"B", 3⟩])
        [⟨"A", 0⟩, ⟨"A", 2⟩, ⟨"B", 3⟩] ≠
      updateOrders [⟨"A", 1⟩] [⟨"A", 0⟩, ⟨"A", 2⟩, ⟨"B", 3⟩] := by
  decide

/-- C6 (amended): applying the same diff twice yields the same price-to-size
association as applying it once (the same levels up to materialization
order), for diffs with no zero-size entries that were already absent. -/
theorem c6_replay_idempotent_assoc (s u : List OrderBookItem)
    (_hz : ∀ e ∈ u, e.S = 0 → e.P ∈ prices s) (p : String) :
    lookupItems (updateOrders (updateOrders s u) u) p =
      lookupItems (updateOrders s u) p := by
  rw [lookupItems_updateOrders_twice, lookupItems_updateOrders_char]
  cases hl : lastTouch u p <;> rfl

/-- Witness for C6 (amended) at a concrete replayed diff. -/
theorem c6_replay_idempotent_assoc_witness :
    lookupItems (updateOrders (updateOrders [⟨"A", 1⟩] [⟨"A", 0⟩, ⟨"B", 2⟩])
        [⟨"A", 0⟩, ⟨"B", 2⟩]) "A" =
      lookupItems (updateOrders [⟨"A", 1⟩] [⟨"A", 0⟩, ⟨"B", 2⟩]) "A" :=
  c6_replay_idempotent_assoc [⟨"A", 1⟩] [⟨"A", 0⟩, ⟨"B", 2⟩] (by decide) "A"

theorem handle_applied (st : Store) (w : WebSocketMessage) (u : OrderBookUpdate)
    (ob : OrderBookResponse)
    (hch : w.Channel = "futures.order_book_update") (hev : w.Event = "update")
    (hres : w.Result.asUpdate = some u) (hne : u.Contract ≠ "")
    (htr : st u.Contract = some ob) (hnon : u.Asks ≠ [] ∨ u.Bids ≠ []) :
    handleWebSocketMessage (.ok w) st =
      setStore st u.Contract
        { ob with Asks := updateOrders ob.Asks u.Asks
                  Bids := updateOrders ob.Bids u.Bids
                  Update := (w.Time : Rat) / 1000 } := by
  have hpos : 0 < u.Asks.length ∨ 0 < u.Bids.length := by
    rcases hnon with h | h
    · exact Or.inl (List.length_pos.mpr h)
    · exact Or.inr (List.length_pos.mpr h)
  simp only [handleWebSocketMessage, hch, hev, hres, htr, if_pos hpos, if_neg hne]
  simp

/-- C3: for a tracked instrument, an update frame whose diff has empty
ask-update and bid-update lists leaves the whole store — in particular the
instrument's `Update` (lastUpdateAt), asks and bids — unchanged; the entry
is mutated, with `Update` set from the frame timestamp divided by 1000,
only when at least one of the two lists is non-empty. -/
theorem c3_empty_diff_guard (st : Store) (w : WebSocketMessage)
    (u : OrderBookUpdate) (ob : OrderBookResponse)
    (hch : w.Channel = "futures.order_book_update") (hev : w.Event = "update")
    (hres : w.Result.asUpdate = some u) (htr : st u.Contract = some ob) :
    ((u.Asks = [] ∧ u.Bids = []) →
      ∀ k, handleWebSocketMessage (.ok w) st k = st k) ∧
    (u.Contract ≠ "" → (u.Asks ≠ [] ∨ u.Bids ≠ []) →
      handleWebSocketMessage (.ok w) st u.Contract =
        some { ob with Asks := updateOrders ob.Asks u.Asks
                       Bids := updateOrders ob.Bids u.Bids
                       Update := (w.Time : Rat) / 1000 }) := by
  constructor
  · rintro ⟨hA, hB⟩ k
    by_cases hne : u.Contract = ""
    · simp only [handleWebSocketMessage, hch, hev, hres, hne]
      simp
    · simp only [handleWebSocketMessage, hch, hev, hres, htr, hA, hB, if_neg hne]
      simp
  · intro hne hnon
    rw [handle_applied st w u ob hch hev hres hne htr hnon]
    simp [setStore]

/-- Witness for C3 at a concrete tracked instrument and an empty diff. -/
theorem c3_empty_diff_guard_witness :
    handleWebSocketMessage
        (.ok ⟨1700000000123, "futures.order_book_update", "update",
          ⟨none, some ⟨"BTC_USDT", [], []⟩⟩⟩)
        (fun k => if k = "BTC_USDT" then
          some ⟨1, 2, 3, [⟨"100.0", 2⟩], [⟨"99.0", 3⟩]⟩ else none) "BTC_USDT" =
      (fun k => if k = "BTC_USDT" then
        some (⟨1, 2, 3, [⟨"100.0", 2⟩], [⟨"99.0", 3⟩]⟩ : OrderBookResponse)
        else none) "BTC_USDT" :=
  (c3_empty_diff_guard _ _ _ _ rfl rfl rfl rfl).1 ⟨rfl, rfl⟩ "BTC_USDT"

/-- C4: a frame that is malformed, on the wrong channel, an update whose
payload fails to decode, or an update naming an empty or untracked
instrument leaves every entry of the Replica Store unchanged; in the model
`handleWebSocketMessage` is a total function, so such a frame returns
normally and never terminates the consumer. -/
theorem c4_benign_frames (m : InMsg) (st : Store)
    (h : m = .malformed ∨ ∃ w, m = .ok w ∧
      (w.Channel ≠ "futures.order_book_update" ∨
       (w.Event = "update" ∧ w.Result.asUpdate = none) ∨
       (∃ u, w.Event = "update" ∧ w.Result.asUpdate = some u ∧
         (u.Contract = "" ∨ st u.Contract = none)))) :
    ∀ k, handleWebSocketMessage m st k = st k := by
  intro k
  rcases h with h | ⟨w, rfl, hcase⟩
  · rw [h]; rfl
  · rcases hcase with hch | ⟨hev, hres⟩ | ⟨u, hev, hres, hu⟩
    · simp [handleWebSocketMessage, hch]
    · by_cases hch : w.Channel = "futures.order_book_update"
      · simp only [handleWebSocketMessage, hch, hev, hres]
        simp
      · simp [handleWebSocketMessage, hch]
    · by_cases hch : w.Channel = "futures.order_book_update"
      · rcases hu with hu | hu
        · simp only [handleWebSocketMessage, hch, hev, hres, hu]
          simp
        · by_cases hne : u.Contract = ""
          · simp only [handleWebSocketMessage, hch, hev, hres, hne]
            simp
          · simp only [handleWebSocketMessage, hch, hev, hres, hu, if_neg hne]
            simp
      · simp [handleWebSocketMessage, hch]

/-- Witness for C4 at a concrete update frame for an untracked instrument. -/
theorem c4_benign_frames_witness :
    handleWebSocketMessage
        (.ok ⟨5, "futures.order_book_update", "update",
          ⟨none, some ⟨"ETH_USDT", [⟨"10.0", 1⟩], []⟩⟩⟩)
        (fun _ => none) "ETH_USDT" =
      (fun _ => (none : Option OrderBookResponse)) "ETH_USDT" :=
  c4_benign_frames _ _
    (Or.inr ⟨_, rfl, Or.inr (Or.inr ⟨_, rfl, rfl, Or.inr rfl⟩)⟩) "ETH_USDT"

/-- C10: an applied update frame rewrites only the `Asks`, `Bids` and
`Update` fields of the named instrument's entry — its `ID` and `Current`
(generatedAt) keep their prior values — and every other instrument's entry
is untouched. -/
theorem c10_applied_frame_effect (st : Store) (w : WebSocketMessage)
    (u : OrderBookUpdate) (ob : OrderBookResponse)
    (hch : w.Channel = "futures.order_book_update") (hev : w.Event = "update")
    (hres : w.Result.asUpdate = some u) (hne : u.Contract ≠ "")
    (htr : st u.Contract = some ob) (hnon : u.Asks ≠ [] ∨ u.Bids ≠ []) :
    handleWebSocketMessage (.ok w) st u.Contract =
      some { ID := ob.ID
             Current := ob.Current
             Update := (w.Time : Rat) / 1000
             Asks := updateOrders ob.Asks u.Asks
             Bids := updateOrders ob.Bids u.Bids } ∧
    ∀ k, k ≠ u.Contract → handleWebSocketMessage (.ok w) st k = st k := by
  rw [handle_applied st w u ob hch hev hres hne htr hnon]
  constructor
  · simp [setStore]
  · intro k hk
    simp [setStore, hk]

/-- Witness for C10 at a concrete applied frame: the untouched-other-entry
part evaluated at a second instrument. -/
theorem c10_applied_frame_effect_witness :
    handleWebSocketMessage
        (.ok ⟨2000, "futures.order_book_update", "update",
          ⟨none, some ⟨"BTC_USDT", [⟨"100.0", 0⟩], []⟩⟩⟩)
        (fun k => if k = "BTC_USDT" then
          some ⟨1, 2, 3, [⟨"100.0", 2⟩], [⟨"99.0", 3⟩]⟩ else none) "LTC_USDT" =
      (fun k => if k = "BTC_USDT" then
        some (⟨1, 2, 3, [⟨"100.0", 2⟩], [⟨"99.0", 3⟩]⟩ : OrderBookResponse)
        else none) "LTC_USDT" :=
  (c10_applied_frame_effect _ _ _ _ rfl rfl rfl (by decide) rfl
    (Or.inl (by decide))).2 "LTC_USDT" (by decide)

theorem applied_step_update (st : Store) (c : String) (m : InMsg)
    (ob : OrderBookResponse) (htr : st c = some ob) (hm : AppliedUpdateFor c m) :
    ∃ ob', streamStep st m c = some ob' ∧ ob'.Update = (msgTime m : Rat) / 1000 := by
  obtain ⟨hne, w, u, rfl, hch, hev, hres, hcon, hnon⟩ := hm
  have h1 := handle_applied st w u ob hch hev hres (by rw [hcon]; exact hne)
    (by rw [hcon]; exact htr) hnon
  refine ⟨{ ob with Asks := updateOrders ob.Asks u.Asks
                    Bids := updateOrders ob.Bids u.Bids
                    Update := (w.Time : Rat) / 1000 }, ?_, rfl⟩
  rw [streamStep, h1]
  simp [setStore, hcon]

theorem map_scanl_eq_cons {α β γ : Type} (f : β → α → β) (g : β → γ)
    (b : β) (l : List α) :
    (List.scanl f b l).map g = g b :: ((List.scanl f b l).tail.map g) := by
  cases l <;> simp [List.scanl]

theorem tail_scanl_cons {α β : Type} (f : β → α → β) (b : β) (a : α) (l : List α) :
    (List.scanl f b (a :: l)).tail = List.scanl f (f b a) l := by
  simp [List.scanl]

/-- C9: over any sequence of applied diff frames for one tracked
instrument, the stored `Update` (lastUpdateAt) after each frame equals that
frame's envelope timestamp divided by 1000, so under non-decreasing frame
timestamps the stored `Update` value is non-decreasing across the
sequence. -/
theorem c9_lastUpdateAt_monotone (fs : List InMsg) (st : Store) (c : String)
    (h0 : ∃ ob, st c = some ob)
    (hall : ∀ m ∈ fs, AppliedUpdateFor c m)
    (hmono : List.Chain' (· ≤ ·) (fs.map msgTime)) :
    ((List.scanl streamStep st fs).tail.map (fun s => updAt s c)) =
      fs.map (fun m => (msgTime m : Rat) / 1000) ∧
    List.Chain' (· ≤ ·)
      ((List.scanl streamStep st fs).tail.map (fun s => updAt s c)) := by
  have main : ∀ (fs : List InMsg) (st : Store), (∃ ob, st c = some ob) →
      (∀ m ∈ fs, AppliedUpdateFor c m) →
      ((List.scanl streamStep st fs).tail.map (fun s => updAt s c)) =
        fs.map (fun m => (msgTime m : Rat) / 1000) := by
    intro fs
    induction fs with
    | nil => intro st _ _; simp [List.scanl]
    | cons m rest ih =>
      intro st h0 hall
      obtain ⟨ob, hob⟩ := h0
      obtain ⟨ob', hc', hupd⟩ :=
        applied_step_update st c m ob hob (hall m (List.mem_cons_self m rest))
      rw [tail_scanl_cons, map_scanl_eq_cons, List.map_cons]
      congr 1
      · rw [show updAt (streamStep st m) c = ob'.Update by simp [updAt, hc']]
        exact hupd
      · exact ih (streamStep st m) ⟨ob', hc'⟩
          (fun m' hm' => hall m' (List.mem_cons_of_mem m hm'))
  have h1 := main fs st h0 hall
  refine ⟨h1, ?_⟩
  rw [h1]
  rw [show fs.map (fun m => (msgTime m : Rat) / 1000) =
      (fs.map msgTime).map (fun (n : Int) => (n : Rat) / 1000) by
    rw [List.map_map]; rfl]
  rw [List.chain'_map]
  refine List.Chain'.imp ?_ hmono
  intro a b hab
  exact (div_le_div_iff_of_pos_right (by norm_num)).mpr (by exact_mod_cast hab)

/-- Witness for C9: two applied frames with non-decreasing timestamps for a
concrete tracked instrument. -/
theorem c9_lastUpdateAt_monotone_witness :
    ((List.scanl streamStep
        (fun k => if k = "BTC_USDT" then
          some (⟨1, 2, 3, [⟨"100.0", 2⟩], [⟨"99.0", 3⟩]⟩ : OrderBookResponse)
          else none)
        [.ok ⟨1000, "futures.order_book_update", "update",
            ⟨none, some ⟨"BTC_USDT", [⟨"100.5", 1⟩], []⟩⟩⟩,
          .ok ⟨2000, "futures.order_book_update", "update",
            ⟨none, some ⟨"BTC_USDT", [⟨"101.0", 2⟩], []⟩⟩⟩]).tail.map
        (fun s => updAt s "BTC_USDT")) =
      [InMsg.ok ⟨1000, "futures.order_book_update", "update",
          ⟨none, some ⟨"BTC_USDT", [⟨"100.5", 1⟩], []⟩⟩⟩,
        InMsg.ok ⟨2000, "futures.order_book_update", "update",
          ⟨none, some ⟨"BTC_USDT", [⟨"101.0", 2⟩], []⟩⟩⟩].map
        (fun m => (msgTime m : Rat) / 1000) ∧
    List.Chain' (· ≤ ·)
      ((List.scanl streamStep
        (fun k => if k = "BTC_USDT" then
          some (⟨1, 2, 3, [⟨"100.0", 2⟩], [⟨"99.0", 3⟩]⟩ : OrderBookResponse)
          else none)
        [.ok ⟨1000, "futures.order_book_update", "update",
            ⟨none, some ⟨"BTC_USDT", [⟨"100.5", 1⟩], []⟩⟩⟩,
          .ok ⟨2000, "futures.order_book_update", "update",
            ⟨none, some ⟨"BTC_USDT", [⟨"101.0", 2⟩], []⟩⟩⟩]).tail.map
        (fun s => updAt s "BTC_USDT")) :=
  c9_lastUpdateAt_monotone _ _ "BTC_USDT" ⟨_, rfl⟩
    (by
      intro m hm
      rcases List.mem_cons.1 hm with rfl | hm
      · exact ⟨by decide, _, _, rfl, rfl, rfl, rfl, rfl, Or.inl (by decide)⟩
      rcases List.mem_cons.1 hm with rfl | hm
      · exact ⟨by decide, _, _, rfl, rfl, rfl, rfl, rfl, Or.inl (by decide)⟩
      · exact absurd hm (List.not_mem_nil m))
    (by
      simp only [List.map_cons, List.map_nil, msgTime]
      exact List.chain'_cons.2 ⟨by norm_num, List.chain'_singleton 2000⟩)

/-- C7: `getOrderBookSnapshot` yields an order book exactly for a status-200
response whose payload decodes; it yields an error for a connection or
body-read failure (transport), for a non-200 status — with the response
body included in the error message — and for a malformed payload; in the
success case the decoded `OrderBookResponse` is returned as is, so its
`Current` (generatedAt), `Update` (lastUpdateAt), `Asks` and `Bids` come
from the response. -/
theorem c7_snapshot_outcomes (fo : FetchOutcome) :
    ((∃ ob, getOrderBookSnapshot fo = .ok ob) ↔
      (∃ body ob, fo = .success 200 body (some ob))) ∧
    (∀ status body parsed, fo = .success status body parsed → status ≠ 200 →
      ∃ pre, getOrderBookSnapshot fo = .error (pre ++ body)) ∧
    (∀ body ob, fo = .success 200 body (some ob) →
      getOrderBookSnapshot fo = .ok ob) := by
  refine ⟨?_, ?_, ?_⟩
  · cases fo with
    | transportFail e => simp [getOrderBookSnapshot]
    | readFail e => simp [getOrderBookSnapshot]
    | success status body parsed =>
      by_cases hs : status = 200
      · subst hs
        cases parsed with
        | none => simp [getOrderBookSnapshot]
        | some ob => simp [getOrderBookSnapshot]
      · simp [getOrderBookSnapshot, hs]
  · rintro status body parsed rfl hs
    exact ⟨"API error, status: " ++ toString status ++ ", response: ",
      by simp [getOrderBookSnapshot, hs]⟩
  · rintro body ob rfl
    simp [getOrderBookSnapshot]

/-- Witness for C7 at a concrete non-200 response: the body appears in the
error message. -/
theorem c7_snapshot_outcomes_witness :
    ∃ pre, getOrderBookSnapshot (.success 404 "oops" none) = .error (pre ++ "oops") :=
  (c7_snapshot_outcomes _).2.1 404 "oops" none rfl (by decide)

/-- C8 (amended): the durable-capture text is the ask lines in reverse of
their stored order, then the separator, then the bid lines, each line
rendered `SIDE price | size` with 8 fractional digits; the ask lines are
price-descending whenever the stored asks are price-ascending (as in a
fresh snapshot) — but a merged state's stored order is the map
materialization order, so no price ordering is guaranteed after merges
(see the counterexample). -/
theorem c8_format_structure (ob : OrderBookResponse) :
    formatOrderBook ob =
      String.join (ob.Asks.reverse.map askLine) ++ sepLine ++
        String.join (ob.Bids.map bidLine) ∧
    (List.Chain' (· ≤ ·) (ob.Asks.map (fun a => parseScaled8 a.P)) →
      List.Chain' (fun a b => b ≤ a)
        (ob.Asks.reverse.map (fun a => parseScaled8 a.P))) := by
  constructor
  · simp only [formatOrderBook]
    rw [foldl_append_eq_join askLine, foldl_append_eq_join bidLine]
    simp [String.append_assoc]
  · intro h
    rw [List.map_reverse, List.chain'_reverse]
    exact h

/-- Witness for C8 (amended) at a concrete price-ascending ask list. -/
theorem c8_format_structure_witness :
    List.Chain' (· ≤ ·)
      (({ ID := 1
          Current := 0
          Update := 0
          Asks := [⟨"99.0", 1⟩, ⟨"100.0", 2⟩]
          Bids := [⟨"98.0", 3⟩] } : OrderBookResponse).Asks.map
        (fun a => parseScaled8 a.P)) ∧
    List.Chain' (fun a b => b ≤ a)
      (({ ID := 1
          Current := 0
          Update := 0
          Asks := [⟨"99.0", 1⟩, ⟨"100.0", 2⟩]
          Bids := [⟨"98.0", 3⟩] } : OrderBookResponse).Asks.reverse.map
        (fun a => parseScaled8 a.P)) := by
  have hasc : List.Chain' (· ≤ ·)
      (({ ID := 1
          Current := 0
          Update := 0
          Asks := [⟨"99.0", 1⟩, ⟨"100.0", 2⟩]
          Bids := [⟨"98.0", 3⟩] } : OrderBookResponse).Asks.map
        (fun a => parseScaled8 a.P)) := by
    simp only [List.map_cons, List.map_nil]
    exact List.chain'_cons.2 ⟨by decide, List.chain'_singleton _⟩
  exact ⟨hasc, (c8_format_structure _).2 hasc⟩

/-- C8 counterexample: a reachable state produced by one merge (a new ask
level "99.0" arriving below the existing "100.0") whose rendered ask lines
are not price-descending: the merge appends the fresh price at the map's
insertion position, and the Go map materialization order is unspecified in
any case, so the reversal in `formatOrderBook` does not sort. -/
theorem c8_counterexample :
    ReachableBook { ID := 1
                    Current := 0
                    Update := 5
                    Asks := updateOrders [⟨"100.0", 2⟩] [⟨"99.0", 1⟩]
                    Bids := updateOrders [⟨"98.0", 3⟩] [] } ∧
    ¬ List.Chain' (fun a b => b ≤ a)
        ((updateOrders [⟨"100.0", 2⟩] [⟨"99.0", 1⟩]).reverse.map
          (fun a => parseScaled8 a.P)) := by
  constructor
  · exact ReachableBook.step ⟨1, 0, 0, [⟨"100.0", 2⟩], [⟨"98.0", 3⟩]⟩
      (ReachableBook.snap _ (by decide) (by decide)) [⟨"99.0", 1⟩] [] 5
  · intro h
    rw [show (updateOrders [⟨"100.0", 2⟩] [⟨"99.0", 1⟩]).reverse.map
        (fun a => parseScaled8 a.P) = [9900000000, 10000000000] by decide] at h
    exact absurd (List.chain'_cons.1 h).1 (by decide)

end GateOB
